import Mathlib

/-!
Verification of the MediaWiki-to-Notion batched upload pipeline.

The definitions below are a shallow embedding, in Lean, of the Python
sources of the repository:

* `lambdas/store_notion_blocks.py` — renders a Markdown document into an
  ordered list of blocks and inserts them into the `NotionBlocks` DynamoDB
  table with a conditional put (namespace `StoreBlocks`).
* `lambdas/upload_notion_blocks/upload_notion_blocks.py` — the current
  upload worker: fetches up to `max_blocks` blocks of one batch in index
  order, resolves or creates the destination Notion page, uploads each
  block, deletes it on success and stops the chunk on the first failure
  (namespace `Uploader`).

DynamoDB is modelled as a list of items; a conditional `put_item` with
`attribute_not_exists(<key attr>)` is rejected exactly when an item with
the same primary key is already present, because every stored item carries
its key attributes.  Remote Notion interactions are modelled by an oracle
environment plus an explicit trace of the remote operations performed.
-/

namespace MwToNotion

/-- One item of the `NotionBlocks` table (partition key `BlockBatch`,
sort key `BlockIndex`), as written by `store_notion_blocks.record_handler`
and read by the upload worker.  `blockContent` is the pickled block
payload, opaque to the store. -/
structure BlockRecord where
  blockBatch : String
  blockIndex : Nat
  s3BucketName : String
  s3ObjectKey : String
  blockContent : String
deriving Repr, DecidableEq

/-- The primary key `(BlockBatch, BlockIndex)` of a block item. -/
def blocksKey (r : BlockRecord) : String × Nat := (r.blockBatch, r.blockIndex)

/-- `table.put_item(Item=…, ConditionExpression=Attr("BlockBatch").not_exists())`
on the `NotionBlocks` table: the condition is evaluated against the existing
item with the same `(BlockBatch, BlockIndex)` key; every stored item has a
`BlockBatch` attribute, so the put is rejected exactly when the key is
already present.  `Except.error` models the raised
`ConditionalCheckFailedException`. -/
def putBlockItem (store : List BlockRecord) (item : BlockRecord) :
    Except Unit (List BlockRecord) :=
  if ∃ r ∈ store, blocksKey r = blocksKey item then Except.error ()
  else Except.ok (store ++ [item])

/-- `table.delete_item(Key={BlockBatch, BlockIndex})`: idempotent,
removes the item with the given key if present. -/
def deleteBlockItem (store : List BlockRecord) (k : String × Nat) :
    List BlockRecord :=
  store.filter (fun r => decide (blocksKey r ≠ k))

/-- The DynamoDB sort-key order used by `query` on the blocks table. -/
def blockIndexLe (a b : BlockRecord) : Prop := a.blockIndex ≤ b.blockIndex

instance : DecidableRel blockIndexLe := fun a b => Nat.decLe a.blockIndex b.blockIndex

instance : IsTotal BlockRecord blockIndexLe := ⟨fun a b => Nat.le_total a.blockIndex b.blockIndex⟩

instance : IsTrans BlockRecord blockIndexLe := ⟨fun _ _ _ h h' => Nat.le_trans h h'⟩

/-- `table.query(Limit=max_blocks, KeyConditionExpression=Key("BlockBatch").eq(batch),
ScanIndexForward=True)`: the items of the partition `batch`, in ascending
sort-key (`BlockIndex`) order, truncated to at most `limit` items. -/
def queryBlocks (store : List BlockRecord) (batch : String) (limit : Nat) :
    List BlockRecord :=
  (List.insertionSort blockIndexLe
    (store.filter (fun r => decide (r.blockBatch = batch)))).take limit

/-- One item of the `NotionPages` table (partition key `BlockBatch`):
the durable mapping from a block batch to the URL of its Notion page. -/
structure PageMapping where
  blockBatch : String
  pageUrl : String
deriving Repr, DecidableEq

/-- `table.put_item(Item={BlockBatch, PageUrl}, ConditionExpression=Attr("PageUrl").not_exists())`
on the `NotionPages` table: every stored mapping has a `PageUrl` attribute, so
the conditional put is rejected exactly when a mapping with this `BlockBatch`
key already exists. -/
def putPageItem (pages : List PageMapping) (m : PageMapping) :
    Except Unit (List PageMapping) :=
  if ∃ p ∈ pages, p.blockBatch = m.blockBatch then Except.error ()
  else Except.ok (pages ++ [m])

/-- The write operations applied to the `NotionBlocks` table by the
pipeline: conditional puts by the block store and deletes by the uploader. -/
inductive BlocksOp
  | put (item : BlockRecord)
  | delete (k : String × Nat)
deriving Repr, DecidableEq

/-- Effect of one table operation on the `NotionBlocks` state; a rejected
conditional put leaves the table unchanged. -/
def applyBlocksOp (store : List BlockRecord) : BlocksOp → List BlockRecord
  | BlocksOp.put item =>
      match putBlockItem store item with
      | Except.ok s => s
      | Except.error _ => store
  | BlocksOp.delete k => deleteBlockItem store k

/-- The `NotionBlocks` state reached from the empty table by a sequence of
puts and deletes. -/
def runBlocksOps (ops : List BlocksOp) : List BlockRecord :=
  ops.foldl applyBlocksOp []

/-!
## The upload worker — `lambdas/upload_notion_blocks/upload_notion_blocks.py`

This is the current revision of the worker Lambda.  (The repository also
still carries a stale earlier revision at `lambdas/upload_notion_blocks.py`,
modelled where a claim needs it as `UploaderLegacy`.)
-/

namespace Uploader

/-- The runtime class of the Notion block fetched for a URL:
`CollectionViewBlock`, `CollectionViewPageBlock`, `PageBlock`, or anything
else (`other`). -/
inductive ParentKind
  | collectionView
  | collectionViewPage
  | page
  | other
deriving Repr, DecidableEq

/-- A remote Notion API interaction performed by `get_or_make_page`:
`getBlock url` is `notion_client.get_block(url)` (a remote read);
`addRow parent` is `parent_page.collection.add_row()` and
`addChildPage parent` is `parent_page.children.add_new(PageBlock, …)`
(remote structural writes creating a page/row). -/
inductive NotionOp
  | getBlock (url : String)
  | addRow (parentUrl : String)
  | addChildPage (parentUrl : String)
deriving Repr, DecidableEq

/-- Oracle for the opaque remote Notion service: what class of block
`get_block` returns for a URL (or that it raises), and the browseable URL
of the page created under a parent (or that creation raises). -/
structure NotionEnv where
  getBlockKind : String → Except Unit ParentKind
  createChild : String → String → Except Unit String

/-- Successful result of `get_or_make_page`: the returned page reference
(its URL), the resulting `NotionPages` table, and the trace of remote
Notion operations performed. -/
structure PageResolveOk where
  pageRef : String
  pages : List PageMapping
  ops : List NotionOp
deriving Repr, DecidableEq

/-- The remote-operation trace of a resolver result (empty on a raise). -/
def resolveOps (e : Except Unit PageResolveOk) : List NotionOp :=
  match e with
  | Except.ok r => r.ops
  | Except.error _ => []

/-- `get_or_make_page(batch_id, title, parent_page_url)` of the current
worker.  `pages` is the `NotionPages` table at the `get_item` lookup;
`concurrent` are mappings durably written by a concurrent resolver between
this call's `get_item` and its conditional `put_item` (so `[]` is the
race-free sequential case).

Source behaviour: look the batch up; if found, return
`notion_client.get_block(page["PageUrl"])`.  Otherwise fetch the parent
block (re-raising on failure), create a child — `collection.add_row()` for
collection parents, `children.add_new(PageBlock, …)` for page parents, a
`ValueError` for anything else — then conditionally insert the new mapping;
a rejected insert is logged **and re-raised**.  `Except.error ()` models
every raised exception. -/
def get_or_make_page (env : NotionEnv) (pages concurrent : List PageMapping)
    (batch_id title parent_page_url : String) : Except Unit PageResolveOk :=
  match pages.find? (fun p => decide (p.blockBatch = batch_id)) with
  | some page =>
      match env.getBlockKind page.pageUrl with
      | Except.error _ => Except.error ()
      | Except.ok _ => Except.ok ⟨page.pageUrl, pages, [NotionOp.getBlock page.pageUrl]⟩
  | none =>
      match env.getBlockKind parent_page_url with
      | Except.error _ => Except.error ()
      | Except.ok kind =>
          let create : Except Unit (String × NotionOp) :=
            match kind with
            | ParentKind.collectionView =>
                (env.createChild parent_page_url title).map
                  (fun u => (u, NotionOp.addRow parent_page_url))
            | ParentKind.collectionViewPage =>
                (env.createChild parent_page_url title).map
                  (fun u => (u, NotionOp.addRow parent_page_url))
            | ParentKind.page =>
                (env.createChild parent_page_url title).map
                  (fun u => (u, NotionOp.addChildPage parent_page_url))
            | ParentKind.other => Except.error ()
          match create with
          | Except.error _ => Except.error ()
          | Except.ok (newUrl, op) =>
              match putPageItem (pages ++ concurrent) ⟨batch_id, newUrl⟩ with
              | Except.error _ => Except.error ()
              | Except.ok ps =>
                  Except.ok ⟨newUrl, ps, [NotionOp.getBlock parent_page_url, op]⟩

/-- Events of one worker invocation on the blocks of its chunk:
a successful `record_handler` call (which ends with the remote block
upload), the subsequent `delete_item`, and a `record_handler` call that
raised. -/
inductive UploadEvent
  | upload (batch : String) (idx : Nat)
  | deleteBlock (batch : String) (idx : Nat)
  | uploadFail (batch : String) (idx : Nat)
deriving Repr, DecidableEq

/-- The two events of a successfully processed block, in program order:
the remote upload completes, then the block is deleted from the store. -/
def successEvents (r : BlockRecord) : List UploadEvent :=
  [UploadEvent.upload r.blockBatch r.blockIndex,
   UploadEvent.deleteBlock r.blockBatch r.blockIndex]

/-- The `for record in response["Items"]` loop of `handler`.
`outcome r = true` models `record_handler(record, tmpdir)` returning
(which in the source happens exactly when the block's remote upload
completed without error, since `return True` directly follows
`uploadBlock`); `outcome r = false` models it raising.  On success the
record is deleted from the table and `("success", record)` is appended; on
failure `("fail", record)` is appended and the loop breaks.  Returns
`(processed_messages, final table state, event trace)`. -/
def processRecords (outcome : BlockRecord → Bool) :
    List BlockRecord → List BlockRecord →
      List (String × BlockRecord) × List BlockRecord × List UploadEvent
  | [], store => ([], store, [])
  | r :: rs, store =>
      if outcome r then
        let rest := processRecords outcome rs (deleteBlockItem store (blocksKey r))
        (("success", r) :: rest.1, rest.2.1, successEvents r ++ rest.2.2)
      else
        ([("fail", r)], store, [UploadEvent.uploadFail r.blockBatch r.blockIndex])

/-- The record returned by `handler`. -/
structure HandlerResult where
  result : String
  success_block_count : Nat
  fail_block_count : Nat
deriving Repr, DecidableEq

/-- A whole worker invocation: the chunk it queried, the
`processed_messages` list, the final `NotionBlocks` state, the event
trace, and the returned results record. -/
structure HandlerRun where
  items : List BlockRecord
  processed : List (String × BlockRecord)
  store : List BlockRecord
  trace : List UploadEvent
  results : HandlerResult
deriving Repr, DecidableEq

/-- `handler(event, context)` of the current worker: query up to
`max_blocks` blocks of `event["BlockBatch"]` in ascending index order,
process them until the first failure, and return
`{"result": "FAIL" if fail > 0 else "SUCCESS",
  "success_block_count": success, "fail_block_count": fail}`. -/
def handler (outcome : BlockRecord → Bool) (store : List BlockRecord)
    (blockBatch : String) (max_blocks : Nat) : HandlerRun :=
  { items := queryBlocks store blockBatch max_blocks
    processed := (processRecords outcome (queryBlocks store blockBatch max_blocks) store).1
    store := (processRecords outcome (queryBlocks store blockBatch max_blocks) store).2.1
    trace := (processRecords outcome (queryBlocks store blockBatch max_blocks) store).2.2
    results :=
      { result :=
          if ((processRecords outcome (queryBlocks store blockBatch max_blocks)
                store).1.filter (fun m => decide (m.1 = "fail"))).length > 0
          then "FAIL" else "SUCCESS"
        success_block_count :=
          ((processRecords outcome (queryBlocks store blockBatch max_blocks)
            store).1.filter (fun m => decide (m.1 = "success"))).length
        fail_block_count :=
          ((processRecords outcome (queryBlocks store blockBatch max_blocks)
            store).1.filter (fun m => decide (m.1 = "fail"))).length } }

end Uploader

/-!
## The ingestion consumer — `lambdas/store_notion_blocks.py`
-/

namespace StoreBlocks

/-- One block produced by `md2notion.upload.convert`: its runtime block
class name (`block.get("type")`) and its title; the block as a whole is
the opaque payload that gets pickled into the table. -/
structure RenderedBlock where
  btype : String
  title : String
deriving Repr, DecidableEq

/-- The pandoc HTML-comment placeholder test of the source:
`block.get("type") is TextBlock and block.get("title") == "<!-- -->"`. -/
def isPandocComment (b : RenderedBlock) : Bool :=
  decide (b.btype = "TextBlock" ∧ b.title = "<!-- -->")

/-- `pickle.dumps(block)`: an opaque serialization of the rendered block. -/
def pickleDumps (b : RenderedBlock) : String :=
  b.btype ++ "|" ++ b.title

/-- The item inserted for block `p.2` at enumeration index `p.1` of batch
`bid`, rendered from `s3://bucket/key`. -/
def mkBlockRecord (bid bucket key : String) (p : Nat × RenderedBlock) :
    BlockRecord :=
  ⟨bid, p.1, bucket, key, pickleDumps p.2⟩

/-- The `for idx, block in enumerate(rendered)` loop of `record_handler`:
pandoc comment placeholders are skipped (`continue`) while the enumeration
index still advances; every other block is inserted with the conditional
put.  A rejected put raises out of the loop: `Except.error` carries the
table state at the raise (earlier puts persist). -/
def storeBlocks (bid bucket key : String) :
    List (Nat × RenderedBlock) → List BlockRecord →
      Except (List BlockRecord) (List BlockRecord)
  | [], store => Except.ok store
  | p :: rest, store =>
      if isPandocComment p.2 then storeBlocks bid bucket key rest store
      else
        match putBlockItem store (mkBlockRecord bid bucket key p) with
        | Except.error _ => Except.error store
        | Except.ok s => storeBlocks bid bucket key rest s

/-- The `NotionBlocks` state after `storeBlocks`, whether or not it raised. -/
def storeBlocksState (bid bucket key : String)
    (l : List (Nat × RenderedBlock)) (store : List BlockRecord) :
    List BlockRecord :=
  match storeBlocks bid bucket key l store with
  | Except.ok s => s
  | Except.error s => s

/-- One S3 object-created record inside the consumed arrival event. -/
structure S3EventRecord where
  bucket : String
  key : String
deriving Repr, DecidableEq

/-- `record_handler(record)` of the ingestion consumer, for the S3 records
of one consumed arrival event.  `render key` models
`convert(md_file)` on the document at `key`; `uuid n` models the `n`-th
value drawn from `str(uuid.uuid4())` — the source draws a **fresh** id per
S3 event record, inside the loop, so a redelivered event draws a new one.
A raised conditional-put rejection aborts the event (the batch processor
requeues it); `Except.error` carries the table state at the raise. -/
def record_handler (render : String → List RenderedBlock) (uuid : Nat → String) :
    List S3EventRecord → Nat → List BlockRecord →
      Except (List BlockRecord) (List BlockRecord)
  | [], _, store => Except.ok store
  | r :: rs, n, store =>
      match storeBlocks (uuid n) r.bucket r.key ((render r.key).enum) store with
      | Except.error s => Except.error s
      | Except.ok s => record_handler render uuid rs (n + 1) s

end StoreBlocks

/-!
## Lemmas about the `NotionBlocks` table operations
-/

theorem putBlockItem_error_of_mem {store : List BlockRecord} {item : BlockRecord}
    (h : ∃ r ∈ store, blocksKey r = blocksKey item) :
    putBlockItem store item = Except.error () := by
  simp [putBlockItem, h]

theorem putBlockItem_ok_of_not_mem {store : List BlockRecord} {item : BlockRecord}
    (h : ¬ ∃ r ∈ store, blocksKey r = blocksKey item) :
    putBlockItem store item = Except.ok (store ++ [item]) := by
  simp only [putBlockItem, if_neg h]

theorem applyBlocksOp_put_of_mem {store : List BlockRecord} {item : BlockRecord}
    (h : ∃ r ∈ store, blocksKey r = blocksKey item) :
    applyBlocksOp store (BlocksOp.put item) = store := by
  simp [applyBlocksOp, putBlockItem_error_of_mem h]

theorem mem_deleteBlockItem {store : List BlockRecord} {k : String × Nat}
    {r : BlockRecord} :
    r ∈ deleteBlockItem store k ↔ r ∈ store ∧ blocksKey r ≠ k := by
  simp [deleteBlockItem]

theorem deleteBlockItem_sublist (store : List BlockRecord) (k : String × Nat) :
    List.Sublist (deleteBlockItem store k) store :=
  List.filter_sublist store

theorem applyBlocksOp_nodup {store : List BlockRecord} (op : BlocksOp)
    (h : (store.map blocksKey).Nodup) :
    ((applyBlocksOp store op).map blocksKey).Nodup := by
  cases op with
  | put item =>
      by_cases hmem : ∃ r ∈ store, blocksKey r = blocksKey item
      · rw [applyBlocksOp_put_of_mem hmem]; exact h
      · simp only [applyBlocksOp, putBlockItem_ok_of_not_mem hmem]
        rw [List.map_append]
        simp only [List.map_cons, List.map_nil]
        rw [List.nodup_append]
        refine ⟨h, List.nodup_singleton _, ?_⟩
        intro k hk hk'
        simp only [List.mem_singleton] at hk'
        subst hk'
        rcases List.mem_map.mp hk with ⟨r, hr, hrk⟩
        exact hmem ⟨r, hr, hrk⟩
  | delete k =>
      exact ((deleteBlockItem_sublist store k).map blocksKey).nodup h

theorem foldl_applyBlocksOp_nodup (ops : List BlocksOp) :
    ∀ store : List BlockRecord, (store.map blocksKey).Nodup →
      ((ops.foldl applyBlocksOp store).map blocksKey).Nodup := by
  induction ops with
  | nil => intro store h; simpa using h
  | cons op ops ih =>
      intro store h
      exact ih (applyBlocksOp store op) (applyBlocksOp_nodup op h)

/-- C2: a second put of an already-present `(batch_id, index)` key is
rejected by the conditional insert and leaves the table unchanged, and no
table state reachable by puts and deletes holds two blocks with the same
`(batch_id, index)` key. -/
theorem blockstore_conditional_insert_idempotent :
    (∀ (store : List BlockRecord) (item : BlockRecord),
        (∃ r ∈ store, blocksKey r = blocksKey item) →
          putBlockItem store item = Except.error () ∧
          applyBlocksOp store (BlocksOp.put item) = store) ∧
    (∀ ops : List BlocksOp, ((runBlocksOps ops).map blocksKey).Nodup) := by
  constructor
  · intro store item h
    exact ⟨putBlockItem_error_of_mem h, applyBlocksOp_put_of_mem h⟩
  · intro ops
    exact foldl_applyBlocksOp_nodup ops [] (by simp)

/-- A sample block item used to instantiate hypotheses in witnesses. -/
def sampleBlock : BlockRecord := ⟨"batch-1", 0, "bucket", "Page.md", "payload"⟩

/-- A duplicate of `sampleBlock`'s key with different content. -/
def sampleBlockDup : BlockRecord := ⟨"batch-1", 0, "bucket", "Page.md", "payload-2"⟩

theorem blockstore_conditional_insert_idempotent_witness :
    (∃ r ∈ [sampleBlock], blocksKey r = blocksKey sampleBlockDup) ∧
    (putBlockItem [sampleBlock] sampleBlockDup = Except.error () ∧
      applyBlocksOp [sampleBlock] (BlocksOp.put sampleBlockDup) = [sampleBlock]) :=
  ⟨⟨sampleBlock, by decide⟩,
    blockstore_conditional_insert_idempotent.1 [sampleBlock] sampleBlockDup
      ⟨sampleBlock, by decide⟩⟩

/-!
## Lemmas about `query` ordering
-/

/-- Strict ascending index order (helper relation for statements). -/
def blockIndexLt (a b : BlockRecord) : Prop := a.blockIndex < b.blockIndex

instance : IsAntisymm BlockRecord blockIndexLt :=
  ⟨fun _ _ h h' => (Nat.lt_asymm h h').elim⟩

theorem queryBlocks_length_le (store : List BlockRecord) (batch : String)
    (limit : Nat) : (queryBlocks store batch limit).length ≤ limit := by
  simp [queryBlocks]

theorem sorted_batch_pairwise_lt {l : List BlockRecord} {batch : String}
    (hbatch : ∀ r ∈ l, r.blockBatch = batch)
    (hnd : (l.map blocksKey).Nodup)
    (hle : l.Pairwise blockIndexLe) :
    l.Pairwise blockIndexLt := by
  have hne : l.Pairwise (fun a b => blocksKey a ≠ blocksKey b) :=
    List.pairwise_map.mp hnd
  refine (hle.and hne).imp_of_mem ?_
  intro a b ha hb hab
  rcases hab with ⟨hle', hkey⟩
  have hidx : a.blockIndex ≠ b.blockIndex := by
    intro h
    apply hkey
    unfold blocksKey
    rw [hbatch a ha, hbatch b hb, h]
  exact Nat.lt_of_le_of_ne hle' hidx

theorem insertionSort_filter_pairwise_lt {store : List BlockRecord}
    {batch : String} (hnd : (store.map blocksKey).Nodup) :
    (List.insertionSort blockIndexLe
      (store.filter (fun r => decide (r.blockBatch = batch)))).Pairwise
        blockIndexLt := by
  set f := store.filter (fun r => decide (r.blockBatch = batch)) with hf
  have hsub : List.Sublist f store := List.filter_sublist store
  have hndf : (f.map blocksKey).Nodup := ((hsub.map blocksKey).nodup hnd)
  have hperm : List.Perm (List.insertionSort blockIndexLe f) f :=
    List.perm_insertionSort blockIndexLe f
  have hnds : ((List.insertionSort blockIndexLe f).map blocksKey).Nodup :=
    ((hperm.map blocksKey).symm.nodup hndf)
  have hbatch : ∀ r ∈ List.insertionSort blockIndexLe f, r.blockBatch = batch := by
    intro r hr
    have hrf : r ∈ f := hperm.mem_iff.mp hr
    have := (List.mem_filter.mp hrf).2
    simpa using this
  have hle : (List.insertionSort blockIndexLe f).Pairwise blockIndexLe :=
    List.sorted_insertionSort blockIndexLe f
  exact sorted_batch_pairwise_lt hbatch hnds hle

theorem queryBlocks_sorted_pairwise {store : List BlockRecord} {batch : String}
    (limit : Nat) (hnd : (store.map blocksKey).Nodup) :
    (queryBlocks store batch limit).Pairwise blockIndexLt :=
  (insertionSort_filter_pairwise_lt hnd).sublist (List.take_sublist limit _)

theorem queryBlocks_perm_invariant {store₁ store₂ : List BlockRecord}
    (batch : String) (limit : Nat) (hnd : (store₁.map blocksKey).Nodup)
    (hperm : List.Perm store₁ store₂) :
    queryBlocks store₁ batch limit = queryBlocks store₂ batch limit := by
  set f₁ := store₁.filter (fun r => decide (r.blockBatch = batch)) with hf₁
  set f₂ := store₂.filter (fun r => decide (r.blockBatch = batch)) with hf₂
  have hnd₂ : (store₂.map blocksKey).Nodup := (hperm.map blocksKey).nodup hnd
  have hpf : List.Perm f₁ f₂ := hperm.filter _
  have hps : List.Perm (List.insertionSort blockIndexLe f₁)
      (List.insertionSort blockIndexLe f₂) :=
    ((List.perm_insertionSort blockIndexLe f₁).trans hpf).trans
      (List.perm_insertionSort blockIndexLe f₂).symm
  have hs₁ : (List.insertionSort blockIndexLe f₁).Pairwise blockIndexLt :=
    insertionSort_filter_pairwise_lt hnd
  have hs₂ : (List.insertionSort blockIndexLe f₂).Pairwise blockIndexLt :=
    insertionSort_filter_pairwise_lt hnd₂
  have heq : List.insertionSort blockIndexLe f₁ = List.insertionSort blockIndexLe f₂ :=
    List.eq_of_perm_of_sorted hps hs₁ hs₂
  simp [queryBlocks, heq]

/-!
## Lemmas about the worker loop
-/

theorem key_mem_deleteBlockItem {store : List BlockRecord} {k k' : String × Nat} :
    k' ∈ (deleteBlockItem store k).map blocksKey ↔
      k' ∈ store.map blocksKey ∧ k' ≠ k := by
  simp only [List.mem_map, mem_deleteBlockItem]
  constructor
  · rintro ⟨r, ⟨hr, hne⟩, rfl⟩
    exact ⟨⟨r, hr, rfl⟩, hne⟩
  · rintro ⟨⟨r, hr, rfl⟩, hne⟩
    exact ⟨r, ⟨hr, hne⟩, rfl⟩

theorem key_mem_deleteFold (pre : List BlockRecord) :
    ∀ (store : List BlockRecord) (k : String × Nat),
      k ∈ (pre.foldl (fun s r => deleteBlockItem s (blocksKey r)) store).map blocksKey ↔
        k ∈ store.map blocksKey ∧ ∀ r ∈ pre, k ≠ blocksKey r := by
  induction pre with
  | nil => simp
  | cons p pre ih =>
      intro store k
      rw [List.foldl_cons, ih, key_mem_deleteBlockItem]
      simp only [List.forall_mem_cons]
      tauto

theorem mem_of_mem_queryBlocks {store : List BlockRecord} {batch : String}
    {limit : Nat} {r : BlockRecord} (h : r ∈ queryBlocks store batch limit) :
    r ∈ store := by
  have h₁ : r ∈ List.insertionSort blockIndexLe
      (store.filter (fun x => decide (x.blockBatch = batch))) :=
    (List.take_sublist limit _).mem h
  have h₂ : r ∈ store.filter (fun x => decide (x.blockBatch = batch)) :=
    (List.perm_insertionSort blockIndexLe _).mem_iff.mp h₁
  exact (List.mem_filter.mp h₂).1

theorem queryBlocks_keys_nodup {store : List BlockRecord} {batch : String}
    (limit : Nat) (hnd : (store.map blocksKey).Nodup) :
    ((queryBlocks store batch limit).map blocksKey).Nodup := by
  apply List.pairwise_map.mpr
  refine (queryBlocks_sorted_pairwise limit hnd).imp ?_
  intro a b hab hkey
  have h2 : a.blockIndex = b.blockIndex := congrArg Prod.snd hkey
  have h3 : a.blockIndex < b.blockIndex := hab
  omega

namespace Uploader

/-- Classifier: a successful remote block upload. -/
def isUploadEv : UploadEvent → Bool
  | UploadEvent.upload _ _ => true
  | _ => false

/-- Classifier: a `delete_item` on the blocks table. -/
def isDeleteEv : UploadEvent → Bool
  | UploadEvent.deleteBlock _ _ => true
  | _ => false

/-- Classifier: a failed `record_handler` call. -/
def isFailEv : UploadEvent → Bool
  | UploadEvent.uploadFail _ _ => true
  | _ => false

theorem processRecords_all_success (outcome : BlockRecord → Bool) :
    ∀ (rs store : List BlockRecord), (∀ r ∈ rs, outcome r = true) →
      processRecords outcome rs store =
        (rs.map (fun r => ("success", r)),
         rs.foldl (fun s r => deleteBlockItem s (blocksKey r)) store,
         (rs.map successEvents).flatten) := by
  intro rs
  induction rs with
  | nil => intro store _; rfl
  | cons r rs ih =>
      intro store hall
      have hr : outcome r = true := hall r (List.mem_cons_self r rs)
      have hrs : ∀ x ∈ rs, outcome x = true := fun x hx =>
        hall x (List.mem_cons_of_mem r hx)
      simp only [processRecords, hr, if_true, ih _ hrs, List.map_cons,
        List.foldl_cons, List.flatten_cons]

theorem processRecords_first_fail (outcome : BlockRecord → Bool)
    (pre : List BlockRecord) (f : BlockRecord) (post : List BlockRecord)
    (hpre : ∀ r ∈ pre, outcome r = true) (hf : outcome f = false) :
    ∀ store : List BlockRecord,
      processRecords outcome (pre ++ f :: post) store =
        (pre.map (fun r => ("success", r)) ++ [("fail", f)],
         pre.foldl (fun s r => deleteBlockItem s (blocksKey r)) store,
         (pre.map successEvents).flatten ++
           [UploadEvent.uploadFail f.blockBatch f.blockIndex]) := by
  induction pre with
  | nil =>
      intro store
      simp only [List.nil_append, processRecords, hf, List.map_nil,
        List.foldl_nil, List.flatten_nil]
      simp
  | cons p pre ih =>
      intro store
      have hp : outcome p = true := hpre p (List.mem_cons_self p pre)
      have hpre' : ∀ r ∈ pre, outcome r = true := fun r hr =>
        hpre r (List.mem_cons_of_mem p hr)
      rw [show (p :: pre) ++ f :: post = p :: (pre ++ f :: post) from rfl]
      simp only [processRecords, hp, if_true]
      rw [ih hpre' (deleteBlockItem store (blocksKey p))]
      simp [List.append_assoc]

theorem processRecords_counts (outcome : BlockRecord → Bool) :
    ∀ (rs store : List BlockRecord),
      ((processRecords outcome rs store).1.filter
          (fun m => decide (m.1 = "success"))).length =
        ((processRecords outcome rs store).2.2.filter isUploadEv).length ∧
      ((processRecords outcome rs store).1.filter
          (fun m => decide (m.1 = "success"))).length =
        ((processRecords outcome rs store).2.2.filter isDeleteEv).length ∧
      ((processRecords outcome rs store).1.filter
          (fun m => decide (m.1 = "fail"))).length =
        ((processRecords outcome rs store).2.2.filter isFailEv).length ∧
      ((processRecords outcome rs store).1.filter
            (fun m => decide (m.1 = "success"))).length +
          ((processRecords outcome rs store).1.filter
            (fun m => decide (m.1 = "fail"))).length =
        (processRecords outcome rs store).1.length ∧
      (processRecords outcome rs store).1.length ≤ rs.length ∧
      ((processRecords outcome rs store).1.filter
          (fun m => decide (m.1 = "fail"))).length ≤ 1 := by
  intro rs
  induction rs with
  | nil => intro store; simp [processRecords]
  | cons r rs ih =>
      intro store
      by_cases hr : outcome r = true
      · have hstep : processRecords outcome (r :: rs) store =
            (("success", r) ::
               (processRecords outcome rs (deleteBlockItem store (blocksKey r))).1,
             (processRecords outcome rs (deleteBlockItem store (blocksKey r))).2.1,
             UploadEvent.upload r.blockBatch r.blockIndex ::
               UploadEvent.deleteBlock r.blockBatch r.blockIndex ::
               (processRecords outcome rs (deleteBlockItem store (blocksKey r))).2.2) := by
          simp [processRecords, hr, successEvents]
        have H := ih (deleteBlockItem store (blocksKey r))
        rw [hstep]
        simp only [List.filter_cons, List.length_cons] at *
        simp only [isUploadEv, isDeleteEv, isFailEv] at *
        simp at *
        omega
      · simp only [Bool.not_eq_true] at hr
        simp [processRecords, hr, isUploadEv, isDeleteEv, isFailEv]

theorem processRecords_processed_leads_chunk (outcome : BlockRecord → Bool) :
    ∀ (rs store : List BlockRecord),
      ∃ t, rs = ((processRecords outcome rs store).1.map Prod.snd) ++ t := by
  intro rs
  induction rs with
  | nil => intro store; exact ⟨[], rfl⟩
  | cons r rs ih =>
      intro store
      by_cases hr : outcome r = true
      · rcases ih (deleteBlockItem store (blocksKey r)) with ⟨t, ht⟩
        refine ⟨t, ?_⟩
        simp only [processRecords, hr, if_true, List.map_cons, List.cons_append]
        exact congrArg (r :: ·) ht
      · simp only [Bool.not_eq_true] at hr
        exact ⟨rs, by simp [processRecords, hr]⟩

/-- In the worker's event trace, every deletion of a block is preceded by
that block's successful upload. -/
def deleteAfterUpload (t : List UploadEvent) : Prop :=
  ∀ (i : Nat) (b : String) (k : Nat),
    t.get? i = some (UploadEvent.deleteBlock b k) →
      ∃ j, j < i ∧ t.get? j = some (UploadEvent.upload b k)

theorem processRecords_deleteAfterUpload (outcome : BlockRecord → Bool) :
    ∀ (rs store : List BlockRecord),
      deleteAfterUpload (processRecords outcome rs store).2.2 := by
  intro rs
  induction rs with
  | nil => intro store i b k h; simp [processRecords] at h
  | cons r rs ih =>
      intro store i b k h
      by_cases hr : outcome r = true
      · have hstep : (processRecords outcome (r :: rs) store).2.2 =
            UploadEvent.upload r.blockBatch r.blockIndex ::
              UploadEvent.deleteBlock r.blockBatch r.blockIndex ::
              (processRecords outcome rs (deleteBlockItem store (blocksKey r))).2.2 := by
          simp [processRecords, hr, successEvents]
        rw [hstep] at h ⊢
        match i, h with
        | 0, h => simp at h
        | 1, h =>
            simp only [List.get?] at h
            injection h with h
            injection h with hb hk
            subst hb
            subst hk
            exact ⟨0, Nat.zero_lt_one, rfl⟩
        | Nat.succ (Nat.succ n), h =>
            rcases ih (deleteBlockItem store (blocksKey r)) n b k h with
              ⟨j, hj, hget⟩
            exact ⟨j + 2, by omega, hget⟩
      · simp only [Bool.not_eq_true] at hr
        have hstep : (processRecords outcome (r :: rs) store).2.2 =
            [UploadEvent.uploadFail r.blockBatch r.blockIndex] := by
          simp [processRecords, hr]
        rw [hstep] at h
        match i, h with
        | 0, h => simp at h
        | Nat.succ n, h => simp at h

theorem filter_fail_map_success (pre : List BlockRecord) :
    (pre.map (fun r => (("success", r) : String × BlockRecord))).filter
      (fun m => decide (m.1 = "fail")) = [] := by
  induction pre with
  | nil => rfl
  | cons p pre ih => simp [ih]

theorem filter_success_map_success (pre : List BlockRecord) :
    (pre.map (fun r => (("success", r) : String × BlockRecord))).filter
      (fun m => decide (m.1 = "success")) =
        pre.map (fun r => ("success", r)) := by
  induction pre with
  | nil => rfl
  | cons p pre ih => simp [ih]

/-- Full characterization of a worker invocation whose chunk has a first
failing block `f`: successes `pre`, then the failure, then the loop breaks. -/
theorem handler_first_fail_spec (outcome : BlockRecord → Bool)
    (store : List BlockRecord) (batch : String) (max_blocks : Nat)
    (pre post : List BlockRecord) (f : BlockRecord)
    (hitems : queryBlocks store batch max_blocks = pre ++ f :: post)
    (hpre : ∀ r ∈ pre, outcome r = true) (hf : outcome f = false) :
    handler outcome store batch max_blocks =
      { items := pre ++ f :: post
        processed := pre.map (fun r => ("success", r)) ++ [("fail", f)]
        store := pre.foldl (fun s r => deleteBlockItem s (blocksKey r)) store
        trace := (pre.map successEvents).flatten ++
          [UploadEvent.uploadFail f.blockBatch f.blockIndex]
        results :=
          { result := "FAIL"
            success_block_count := pre.length
            fail_block_count := 1 } } := by
  simp only [handler, hitems,
    processRecords_first_fail outcome pre f post hpre hf store]
  rw [List.filter_append, List.filter_append, filter_fail_map_success,
    filter_success_map_success]
  simp

/-- Full characterization of a worker invocation all of whose chunk blocks
upload successfully. -/
theorem handler_all_success_spec (outcome : BlockRecord → Bool)
    (store : List BlockRecord) (batch : String) (max_blocks : Nat)
    (hall : ∀ r ∈ queryBlocks store batch max_blocks, outcome r = true) :
    handler outcome store batch max_blocks =
      { items := queryBlocks store batch max_blocks
        processed := (queryBlocks store batch max_blocks).map
          (fun r => ("success", r))
        store := (queryBlocks store batch max_blocks).foldl
          (fun s r => deleteBlockItem s (blocksKey r)) store
        trace := ((queryBlocks store batch max_blocks).map successEvents).flatten
        results :=
          { result := "SUCCESS"
            success_block_count := (queryBlocks store batch max_blocks).length
            fail_block_count := 0 } } := by
  simp only [handler,
    processRecords_all_success outcome (queryBlocks store batch max_blocks)
      store hall]
  rw [filter_fail_map_success, filter_success_map_success]
  simp

/-- C1: if some block of the chunk fails to upload, the worker stops at the
first failing block: the processed list is exactly the successful prefix
followed by the single failure, the event trace contains no upload and no
deletion for any later block, the blocks table keeps everything except the
successfully uploaded prefix — whose blocks remain deleted, not rolled
back — and the invocation reports `FAIL`. -/
theorem uploader_aborts_chunk_on_first_failure (outcome : BlockRecord → Bool)
    (store : List BlockRecord) (batch : String) (max_blocks : Nat)
    (pre post : List BlockRecord) (f : BlockRecord)
    (hitems : queryBlocks store batch max_blocks = pre ++ f :: post)
    (hpre : ∀ r ∈ pre, outcome r = true) (hf : outcome f = false) :
    (handler outcome store batch max_blocks).results.result = "FAIL" ∧
    (handler outcome store batch max_blocks).processed =
      pre.map (fun r => ("success", r)) ++ [("fail", f)] ∧
    (handler outcome store batch max_blocks).trace =
      (pre.map successEvents).flatten ++
        [UploadEvent.uploadFail f.blockBatch f.blockIndex] ∧
    (handler outcome store batch max_blocks).store =
      pre.foldl (fun s r => deleteBlockItem s (blocksKey r)) store ∧
    (∀ r ∈ pre, blocksKey r ∉
      ((handler outcome store batch max_blocks).store).map blocksKey) := by
  rw [handler_first_fail_spec outcome store batch max_blocks pre post f
    hitems hpre hf]
  refine ⟨rfl, rfl, rfl, rfl, ?_⟩
  intro r hr hmem
  exact ((key_mem_deleteFold pre store (blocksKey r)).mp hmem).2 r hr rfl

/-- A concrete chunk for the C1 witness: block 0 uploads, block 1 fails. -/
def wBlock0 : BlockRecord := ⟨"wb", 0, "bucket", "Page.md", "c0"⟩

/-- Second block of the C1 witness chunk (its upload fails). -/
def wBlock1 : BlockRecord := ⟨"wb", 1, "bucket", "Page.md", "c1"⟩

/-- Third block of the C1 witness chunk (never reached). -/
def wBlock2 : BlockRecord := ⟨"wb", 2, "bucket", "Page.md", "c2"⟩

/-- Upload outcome oracle for the C1 witness: only block index 0 succeeds. -/
def wOutcome : BlockRecord → Bool := fun r => decide (r.blockIndex = 0)

theorem uploader_aborts_chunk_on_first_failure_witness :
    (queryBlocks [wBlock2, wBlock0, wBlock1] "wb" 10 =
        [wBlock0] ++ wBlock1 :: [wBlock2]) ∧
    (∀ r ∈ [wBlock0], wOutcome r = true) ∧
    wOutcome wBlock1 = false ∧
    ((handler wOutcome [wBlock2, wBlock0, wBlock1] "wb" 10).results.result =
        "FAIL" ∧
      (handler wOutcome [wBlock2, wBlock0, wBlock1] "wb" 10).processed =
        [wBlock0].map (fun r => ("success", r)) ++ [("fail", wBlock1)] ∧
      (handler wOutcome [wBlock2, wBlock0, wBlock1] "wb" 10).trace =
        ([wBlock0].map successEvents).flatten ++
          [UploadEvent.uploadFail wBlock1.blockBatch wBlock1.blockIndex] ∧
      (handler wOutcome [wBlock2, wBlock0, wBlock1] "wb" 10).store =
        [wBlock0].foldl (fun s r => deleteBlockItem s (blocksKey r))
          [wBlock2, wBlock0, wBlock1] ∧
      (∀ r ∈ [wBlock0], blocksKey r ∉
        ((handler wOutcome [wBlock2, wBlock0, wBlock1] "wb" 10).store).map
          blocksKey)) :=
  ⟨by decide, by decide, by decide,
    uploader_aborts_chunk_on_first_failure wOutcome
      [wBlock2, wBlock0, wBlock1] "wb" 10 [wBlock0] [wBlock2] wBlock1
      (by decide) (by decide) (by decide)⟩

/-- C4: the worker invocation's returned record satisfies the output
contract: `result` is `"FAIL"` exactly when `fail_block_count > 0` and
`"SUCCESS"` otherwise; `success_block_count` counts the blocks both
uploaded and deleted in this invocation (the successful-upload events and
the deletion events of the trace, which agree), and `fail_block_count`
counts the failed blocks. -/
theorem uploader_result_contract (outcome : BlockRecord → Bool)
    (store : List BlockRecord) (batch : String) (max_blocks : Nat) :
    ((handler outcome store batch max_blocks).results.result = "FAIL" ↔
      (handler outcome store batch max_blocks).results.fail_block_count > 0) ∧
    ((handler outcome store batch max_blocks).results.result = "SUCCESS" ↔
      (handler outcome store batch max_blocks).results.fail_block_count = 0) ∧
    (handler outcome store batch max_blocks).results.success_block_count =
      ((handler outcome store batch max_blocks).trace.filter isUploadEv).length ∧
    (handler outcome store batch max_blocks).results.success_block_count =
      ((handler outcome store batch max_blocks).trace.filter isDeleteEv).length ∧
    (handler outcome store batch max_blocks).results.fail_block_count =
      ((handler outcome store batch max_blocks).trace.filter isFailEv).length := by
  obtain ⟨h1, h2, h3, _h4, _h5, _h6⟩ :=
    processRecords_counts outcome (queryBlocks store batch max_blocks) store
  simp only [handler]
  refine ⟨?_, ?_, h1, h2, h3⟩
  · by_cases h : ((processRecords outcome (queryBlocks store batch max_blocks)
        store).1.filter (fun m => decide (m.1 = "fail"))).length > 0
    · simp [h]
    · simp [h]
  · by_cases h : ((processRecords outcome (queryBlocks store batch max_blocks)
        store).1.filter (fun m => decide (m.1 = "fail"))).length > 0
    · rw [if_pos h]
      constructor
      · intro hc
        exact absurd hc (by decide)
      · intro hc
        omega
    · rw [if_neg h]
      constructor
      · intro _
        omega
      · intro _
        rfl

/-- C9: in every worker invocation, at most one block fails (the loop
breaks at the first failure), the success and fail counts sum to the
number of processed blocks, which never exceeds the chunk size, itself at
most `max_blocks`. -/
theorem uploader_counts_bounded (outcome : BlockRecord → Bool)
    (store : List BlockRecord) (batch : String) (max_blocks : Nat) :
    (handler outcome store batch max_blocks).results.fail_block_count ≤ 1 ∧
    (handler outcome store batch max_blocks).results.success_block_count +
        (handler outcome store batch max_blocks).results.fail_block_count =
      (handler outcome store batch max_blocks).processed.length ∧
    (handler outcome store batch max_blocks).processed.length ≤
      (handler outcome store batch max_blocks).items.length ∧
    (handler outcome store batch max_blocks).items.length ≤ max_blocks := by
  obtain ⟨_h1, _h2, _h3, h4, h5, h6⟩ :=
    processRecords_counts outcome (queryBlocks store batch max_blocks) store
  simp only [handler]
  exact ⟨h6, h4, h5, queryBlocks_length_le store batch max_blocks⟩

theorem head_dropWhile_false {α : Type} {p : α → Bool} :
    ∀ {l : List α} {f : α} {post : List α},
      l.dropWhile p = f :: post → p f = false := by
  intro l
  induction l with
  | nil => intro f post h; simp [List.dropWhile] at h
  | cons a l ih =>
      intro f post h
      by_cases ha : p a = true
      · rw [List.dropWhile_cons_of_pos ha] at h
        exact ih h
      · simp only [Bool.not_eq_true] at ha
        rw [List.dropWhile_cons_of_neg (by simp [ha])] at h
        injection h with h1 _
        rw [← h1]
        exact ha

theorem mem_takeWhile_true {α : Type} {p : α → Bool} :
    ∀ {l : List α} {r}, r ∈ l.takeWhile p → p r = true := by
  intro l
  induction l with
  | nil => intro r h; simp [List.takeWhile] at h
  | cons a l ih =>
      intro r h
      by_cases ha : p a = true
      · rw [List.takeWhile_cons_of_pos ha] at h
        rcases List.mem_cons.mp h with h | h
        · rw [h]; exact ha
        · exact ih h
      · rw [List.takeWhile_cons_of_neg (by simpa using ha)] at h
        simp at h

theorem upload_mem_flatten {pre : List BlockRecord} {b : String} {i : Nat} :
    UploadEvent.upload b i ∈ (pre.map successEvents).flatten ↔
      (b, i) ∈ pre.map blocksKey := by
  simp only [List.mem_flatten, List.mem_map, successEvents, blocksKey]
  constructor
  · rintro ⟨l, ⟨r, hr, rfl⟩, hmem⟩
    rcases List.mem_cons.mp hmem with h | h
    · injection h with hb hi
      exact ⟨r, hr, by rw [hb, hi]⟩
    · simp at h
  · rintro ⟨r, hr, hk⟩
    injection hk with hb hi
    exact ⟨_, ⟨r, hr, rfl⟩, by rw [hb, hi]; exact List.mem_cons_self _ _⟩

/-- C7: a block of the chunk is deleted from the blocks table exactly when
its remote upload completed without error (a failed block — and every
block after it — stays in the table), and in the event trace every
deletion of a block happens strictly after that block's successful
upload. -/
theorem uploader_delete_iff_upload (outcome : BlockRecord → Bool)
    (store : List BlockRecord) (batch : String) (max_blocks : Nat)
    (hnd : (store.map blocksKey).Nodup) :
    (∀ r ∈ (handler outcome store batch max_blocks).items,
        (UploadEvent.upload r.blockBatch r.blockIndex ∈
            (handler outcome store batch max_blocks).trace ↔
          blocksKey r ∉
            ((handler outcome store batch max_blocks).store).map blocksKey)) ∧
    deleteAfterUpload (handler outcome store batch max_blocks).trace := by
  constructor
  · intro r hr
    have hritems : r ∈ queryBlocks store batch max_blocks := hr
    have hndi : ((queryBlocks store batch max_blocks).map blocksKey).Nodup :=
      queryBlocks_keys_nodup max_blocks hnd
    have hTD : (queryBlocks store batch max_blocks).takeWhile outcome ++
        (queryBlocks store batch max_blocks).dropWhile outcome =
          queryBlocks store batch max_blocks :=
      List.takeWhile_append_dropWhile outcome (queryBlocks store batch max_blocks)
    cases hdrop : (queryBlocks store batch max_blocks).dropWhile outcome with
    | nil =>
        have hall : ∀ x ∈ queryBlocks store batch max_blocks, outcome x = true := by
          intro x hx
          rw [← hTD, hdrop, List.append_nil] at hx
          exact mem_takeWhile_true hx
        rw [handler_all_success_spec outcome store batch max_blocks hall]
        constructor
        · intro _ hmem
          exact ((key_mem_deleteFold _ store (blocksKey r)).mp hmem).2 r
            hritems rfl
        · intro _
          exact upload_mem_flatten.mpr (List.mem_map_of_mem blocksKey hritems)
    | cons f post =>
        rw [hdrop] at hTD
        have hpre : ∀ x ∈ (queryBlocks store batch max_blocks).takeWhile outcome,
            outcome x = true := fun x hx => mem_takeWhile_true hx
        have hf : outcome f = false := head_dropWhile_false hdrop
        rw [handler_first_fail_spec outcome store batch max_blocks
          ((queryBlocks store batch max_blocks).takeWhile outcome) post f
          hTD.symm hpre hf]
        have hndsplit :
            (((queryBlocks store batch max_blocks).takeWhile outcome).map
                blocksKey ++ (f :: post).map blocksKey).Nodup := by
          rw [← List.map_append, hTD]
          exact hndi
        rcases List.mem_append.mp (by rw [hTD]; exact hritems) with hmem | hmem
        · -- r is in the successful prefix: uploaded and deleted
          constructor
          · intro _ hkey
            exact ((key_mem_deleteFold _ store (blocksKey r)).mp hkey).2 r
              hmem rfl
          · intro _
            apply List.mem_append_left
            exact upload_mem_flatten.mpr (List.mem_map_of_mem blocksKey hmem)
        · -- r is the failing block or after it: not uploaded, not deleted
          have hdisj : blocksKey r ∉
              (((queryBlocks store batch max_blocks).takeWhile outcome).map
                blocksKey) := by
            intro hin
            exact (List.nodup_append.mp hndsplit).2.2 hin
              (List.mem_map_of_mem blocksKey hmem)
          constructor
          · intro hup
            rcases List.mem_append.mp hup with hup | hup
            · exact absurd (upload_mem_flatten.mp hup) hdisj
            · simp at hup
          · intro hkey
            exfalso
            apply hkey
            apply (key_mem_deleteFold _ store (blocksKey r)).mpr
            refine ⟨List.mem_map_of_mem blocksKey (mem_of_mem_queryBlocks hritems), ?_⟩
            intro x hx hxk
            exact hdisj (hxk ▸ List.mem_map_of_mem blocksKey hx)
  · exact processRecords_deleteAfterUpload outcome
      (queryBlocks store batch max_blocks) store

theorem uploader_delete_iff_upload_witness :
    (([wBlock2, wBlock0, wBlock1].map blocksKey).Nodup) ∧
    ((∀ r ∈ (handler wOutcome [wBlock2, wBlock0, wBlock1] "wb" 10).items,
        (UploadEvent.upload r.blockBatch r.blockIndex ∈
            (handler wOutcome [wBlock2, wBlock0, wBlock1] "wb" 10).trace ↔
          blocksKey r ∉
            ((handler wOutcome [wBlock2, wBlock0, wBlock1] "wb" 10).store).map
              blocksKey)) ∧
      deleteAfterUpload (handler wOutcome [wBlock2, wBlock0, wBlock1] "wb" 10).trace) :=
  ⟨by decide,
    uploader_delete_iff_upload wOutcome [wBlock2, wBlock0, wBlock1] "wb" 10
      (by decide)⟩

/-- C6: listing a batch's blocks returns at most `max_blocks` blocks in
strictly ascending index order; the listing is invariant under any
reordering (permutation) of the underlying insertions; consequently the
worker chunk is processed in ascending index order. -/
theorem query_blocks_ordered_bounded (store : List BlockRecord)
    (batch : String) (max_blocks : Nat)
    (hnd : (store.map blocksKey).Nodup) :
    (queryBlocks store batch max_blocks).length ≤ max_blocks ∧
    List.Chain' (fun a b => a.blockIndex < b.blockIndex)
      (queryBlocks store batch max_blocks) ∧
    (∀ store₂, List.Perm store store₂ →
        queryBlocks store batch max_blocks =
          queryBlocks store₂ batch max_blocks) ∧
    (∀ outcome : BlockRecord → Bool,
        List.Chain' (fun a b => a.blockIndex < b.blockIndex)
          ((handler outcome store batch max_blocks).processed.map Prod.snd)) := by
  have hpw : (queryBlocks store batch max_blocks).Pairwise blockIndexLt :=
    queryBlocks_sorted_pairwise max_blocks hnd
  refine ⟨queryBlocks_length_le store batch max_blocks, hpw.chain', ?_, ?_⟩
  · intro store₂ hperm
    exact queryBlocks_perm_invariant batch max_blocks hnd hperm
  · intro outcome
    rcases processRecords_processed_leads_chunk outcome
      (queryBlocks store batch max_blocks) store with ⟨t, ht⟩
    have hsub : List.Sublist
        ((processRecords outcome (queryBlocks store batch max_blocks)
          store).1.map Prod.snd) (queryBlocks store batch max_blocks) := by
      have hs := List.sublist_append_left
        ((processRecords outcome (queryBlocks store batch max_blocks)
          store).1.map Prod.snd) t
      rw [← ht] at hs
      exact hs
    exact (hpw.sublist hsub).chain'

theorem query_blocks_ordered_bounded_witness :
    (([wBlock2, wBlock0, wBlock1].map blocksKey).Nodup) ∧
    ((queryBlocks [wBlock2, wBlock0, wBlock1] "wb" 10).length ≤ 10 ∧
      List.Chain' (fun a b => a.blockIndex < b.blockIndex)
        (queryBlocks [wBlock2, wBlock0, wBlock1] "wb" 10) ∧
      (∀ store₂, List.Perm [wBlock2, wBlock0, wBlock1] store₂ →
          queryBlocks [wBlock2, wBlock0, wBlock1] "wb" 10 =
            queryBlocks store₂ "wb" 10) ∧
      (∀ outcome : BlockRecord → Bool,
          List.Chain' (fun a b => a.blockIndex < b.blockIndex)
            ((handler outcome [wBlock2, wBlock0, wBlock1] "wb" 10).processed.map
              Prod.snd))) :=
  ⟨by decide,
    query_blocks_ordered_bounded [wBlock2, wBlock0, wBlock1] "wb" 10 (by decide)⟩

/-!
## Page resolver claims
-/

/-- A concrete remote environment: every URL resolves to a plain page,
and page creation succeeds with a fixed new URL. -/
def cexEnv : NotionEnv :=
  ⟨fun _ => Except.ok ParentKind.page,
   fun _ _ => Except.ok "https://notion.example/new"⟩

/-- A durable mapping for the batch used in the C5 counterexample. -/
def cexMapping : PageMapping := ⟨"batch-c5", "https://notion.example/existing"⟩

/-- C5 counterexample: with a durable mapping present, the resolver still
performs a remote call — `notion_client.get_block(page["PageUrl"])` — so
the claim that it "performs no remote call" is false (its trace at this
input is nonempty). -/
theorem page_resolver_found_remote_read_cex :
    resolveOps (get_or_make_page cexEnv [cexMapping] [] "batch-c5" "Title"
        "https://notion.example/parent") =
      [NotionOp.getBlock "https://notion.example/existing"] ∧
    [NotionOp.getBlock "https://notion.example/existing"] ≠
      ([] : List NotionOp) := by
  exact ⟨rfl, by decide⟩

/-- C5 (amended): with a durable mapping for `batch_id`, the resolver
returns that mapping's page reference, leaves the `NotionPages` table
unchanged (writes no new mapping), and its only remote interaction is the
single remote *read* of the stored page URL — in particular it performs no
remote write: it creates no remote page or row. -/
theorem page_resolver_found_no_remote_write (env : NotionEnv)
    (pages concurrent : List PageMapping)
    (batch_id title parent_page_url : String) (m : PageMapping)
    (k : ParentKind)
    (hfind : pages.find? (fun p => decide (p.blockBatch = batch_id)) = some m)
    (hget : env.getBlockKind m.pageUrl = Except.ok k) :
    get_or_make_page env pages concurrent batch_id title parent_page_url =
      Except.ok ⟨m.pageUrl, pages, [NotionOp.getBlock m.pageUrl]⟩ := by
  unfold get_or_make_page
  simp only [hfind, hget]

theorem page_resolver_found_no_remote_write_witness :
    ([cexMapping].find? (fun p => decide (p.blockBatch = "batch-c5")) =
        some cexMapping) ∧
    (cexEnv.getBlockKind cexMapping.pageUrl = Except.ok ParentKind.page) ∧
    get_or_make_page cexEnv [cexMapping] [] "batch-c5" "Title"
        "https://notion.example/parent" =
      Except.ok ⟨cexMapping.pageUrl, [cexMapping],
        [NotionOp.getBlock cexMapping.pageUrl]⟩ :=
  ⟨rfl, rfl,
    page_resolver_found_no_remote_write cexEnv [cexMapping] [] "batch-c5"
      "Title" "https://notion.example/parent" cexMapping ParentKind.page
      rfl rfl⟩

/-- The mapping durably written by the concurrent resolver in the C3
counterexample race. -/
def cexDurable : PageMapping := ⟨"batch-c3", "https://notion.example/durable"⟩

/-- C3 counterexample: in the race — no mapping at lookup time, a durable
mapping written concurrently before the conditional insert — the current
resolver does **not** swallow the rejection and return a reference: the
exception is re-raised to the caller (the call evaluates to a raise and
returns nothing). -/
theorem page_resolver_race_not_silent_cex :
    get_or_make_page cexEnv [] [cexDurable] "batch-c3" "Title"
        "https://notion.example/parent" = Except.error () ∧
    ¬ ∃ res : PageResolveOk,
        get_or_make_page cexEnv [] [cexDurable] "batch-c3" "Title"
          "https://notion.example/parent" = Except.ok res := by
  have h0 : get_or_make_page cexEnv [] [cexDurable] "batch-c3" "Title"
      "https://notion.example/parent" = Except.error () := rfl
  refine ⟨h0, ?_⟩
  rintro ⟨res, h⟩
  rw [h0] at h
  simp at h

/-- C3 (amended): when no mapping exists at lookup time but a concurrent
resolver has durably written one before the conditional insert, the
insert's rejection is logged and re-raised to the caller — the resolver
raises instead of returning a reference (the earlier flat revision
`lambdas/upload_notion_blocks.py` swallowed this rejection and returned
the freshly created, possibly orphaned, page instead). -/
theorem page_resolver_race_raises (env : NotionEnv)
    (pages concurrent : List PageMapping)
    (batch_id title parent_page_url : String) (m : PageMapping)
    (hlook : pages.find? (fun p => decide (p.blockBatch = batch_id)) = none)
    (hm : m ∈ pages ++ concurrent) (hmb : m.blockBatch = batch_id) :
    get_or_make_page env pages concurrent batch_id title parent_page_url =
      Except.error () := by
  unfold get_or_make_page
  rw [hlook]
  cases hk : env.getBlockKind parent_page_url with
  | error e => rfl
  | ok kind =>
      cases kind with
      | other => rfl
      | collectionView =>
          cases hc : env.createChild parent_page_url title with
          | error e => rfl
          | ok u =>
              simp only [Except.map]
              unfold putPageItem
              rw [if_pos ⟨m, hm, hmb⟩]
      | collectionViewPage =>
          cases hc : env.createChild parent_page_url title with
          | error e => rfl
          | ok u =>
              simp only [Except.map]
              unfold putPageItem
              rw [if_pos ⟨m, hm, hmb⟩]
      | page =>
          cases hc : env.createChild parent_page_url title with
          | error e => rfl
          | ok u =>
              simp only [Except.map]
              unfold putPageItem
              rw [if_pos ⟨m, hm, hmb⟩]

theorem page_resolver_race_raises_witness :
    (([] : List PageMapping).find?
        (fun p => decide (p.blockBatch = "batch-c3")) = none) ∧
    (cexDurable ∈ ([] : List PageMapping) ++ [cexDurable]) ∧
    (cexDurable.blockBatch = "batch-c3") ∧
    get_or_make_page cexEnv [] [cexDurable] "batch-c3" "Title"
        "https://notion.example/parent" = Except.error () :=
  ⟨rfl, by decide, rfl,
    page_resolver_race_raises cexEnv [] [cexDurable] "batch-c3" "Title"
      "https://notion.example/parent" cexDurable rfl (by decide) rfl⟩

end Uploader

/-!
## Ingestion claims
-/

namespace StoreBlocks

theorem enum_fst_nodup {α : Type} (l : List α) :
    (l.enum.map Prod.fst).Nodup := by
  rw [List.enum_map_fst]
  exact List.nodup_range _

theorem enum_fst_pairwise_lt {α : Type} (l : List α) :
    l.enum.Pairwise (fun p q => p.1 < q.1) := by
  apply List.pairwise_map.mp
  rw [List.enum_map_fst]
  exact List.pairwise_lt_range _

/-- If every enumeration index is new for this batch and the enumeration
indices are distinct, every conditional insert of the loop succeeds and
the run appends exactly the non-placeholder blocks. -/
theorem storeBlocks_ok (bid bucket key : String) :
    ∀ (l : List (Nat × RenderedBlock)) (store : List BlockRecord),
      (l.map Prod.fst).Nodup →
      (∀ r ∈ store, r.blockBatch = bid → r.blockIndex ∉ l.map Prod.fst) →
      storeBlocks bid bucket key l store =
        Except.ok (store ++
          (l.filter (fun p => !isPandocComment p.2)).map
            (mkBlockRecord bid bucket key)) := by
  intro l
  induction l with
  | nil => intro store _ _; simp [storeBlocks]
  | cons p rest ih =>
      intro store hnd hfresh
      have hndr : (rest.map Prod.fst).Nodup := by
        simp only [List.map_cons, List.nodup_cons] at hnd
        exact hnd.2
      have hhead : p.1 ∉ rest.map Prod.fst := by
        simp only [List.map_cons, List.nodup_cons] at hnd
        exact hnd.1
      by_cases hc : isPandocComment p.2 = true
      · rw [show storeBlocks bid bucket key (p :: rest) store =
            storeBlocks bid bucket key rest store by
          simp [storeBlocks, hc]]
        rw [ih store hndr ?_]
        · simp [List.filter_cons, hc]
        · intro r hr hb
          have := hfresh r hr hb
          simp only [List.map_cons, List.mem_cons] at this
          exact fun hmem => this (Or.inr hmem)
      · have hput : putBlockItem store (mkBlockRecord bid bucket key p) =
            Except.ok (store ++ [mkBlockRecord bid bucket key p]) := by
          apply putBlockItem_ok_of_not_mem
          rintro ⟨r, hr, hkeq⟩
          have hb : r.blockBatch = bid := congrArg Prod.fst hkeq
          have hi : r.blockIndex = p.1 := congrArg Prod.snd hkeq
          have := hfresh r hr hb
          simp only [List.map_cons, List.mem_cons] at this
          exact this (Or.inl hi)
        rw [show storeBlocks bid bucket key (p :: rest) store =
            storeBlocks bid bucket key rest
              (store ++ [mkBlockRecord bid bucket key p]) by
          simp [storeBlocks, hc, hput]]
        rw [ih (store ++ [mkBlockRecord bid bucket key p]) hndr ?_]
        · simp [List.filter_cons, hc, List.append_assoc]
        · intro r hr hb
          rcases List.mem_append.mp hr with hr | hr
          · have := hfresh r hr hb
            simp only [List.map_cons, List.mem_cons] at this
            exact fun hmem => this (Or.inr hmem)
          · simp only [List.mem_singleton] at hr
            subst hr
            exact hhead

/-- Rendering oracle for the C8 scenario: the document renders to one
ordinary text block. -/
def cexRender : String → List RenderedBlock := fun _ => [⟨"TextBlock", "hello"⟩]

/-- The stream of fresh `uuid4` draws for the C8 scenario (distinct per
draw, as uuid4 values are). -/
def cexUuid : Nat → String := fun n => "u" ++ toString n

/-- The S3 record of the arrival event in the C8 scenario. -/
def cexS3 : S3EventRecord := ⟨"bucket", "Page.md"⟩

/-- The block stored by the first delivery of the C8 event. -/
def cexFirstRec : BlockRecord := ⟨"u0", 0, "bucket", "Page.md", "TextBlock|hello"⟩

/-- The block stored by the redelivery of the same C8 event. -/
def cexSecondRec : BlockRecord := ⟨"u1", 0, "bucket", "Page.md", "TextBlock|hello"⟩

/-- C8 counterexample: the ingestion consumer draws a fresh `uuid4` batch
id per processed event, so a redelivery of the same arrival event is
**not** deduplicated by the conditional key insert: the second delivery's
inserts all succeed under the new batch id, storing a second copy of the
document's block (same content and source key, different batch id). -/
theorem redelivery_not_deduplicated_cex :
    StoreBlocks.record_handler cexRender cexUuid [cexS3] 0 [] =
      Except.ok [cexFirstRec] ∧
    StoreBlocks.record_handler cexRender cexUuid [cexS3] 1 [cexFirstRec] =
      Except.ok [cexFirstRec, cexSecondRec] ∧
    cexFirstRec.blockContent = cexSecondRec.blockContent ∧
    cexFirstRec.s3ObjectKey = cexSecondRec.s3ObjectKey ∧
    cexFirstRec.blockBatch ≠ cexSecondRec.blockBatch := by
  refine ⟨rfl, rfl, rfl, rfl, by decide⟩

/-- C8 (amended): the consumer derives a fresh unique `batch_id` per
arrival event, and precisely because of that a redelivered event — whose
batch id differs from every batch already in the table — has **all** its
conditional inserts succeed: nothing is rejected and the blocks are stored
a second time under the new batch id.  The conditional key insert
deduplicates only re-inserts of the same `(batch_id, index)` key, not
event redelivery. -/
theorem redelivery_fresh_batch_inserts_succeed
    (render : String → List RenderedBlock) (uuid : Nat → String)
    (rec : S3EventRecord) (n : Nat) (store : List BlockRecord)
    (hfresh : ∀ r ∈ store, r.blockBatch ≠ uuid n) :
    record_handler render uuid [rec] n store =
      Except.ok (store ++
        (((render rec.key).enum.filter (fun p => !isPandocComment p.2)).map
          (mkBlockRecord (uuid n) rec.bucket rec.key))) := by
  have h := storeBlocks_ok (uuid n) rec.bucket rec.key (render rec.key).enum
    store (enum_fst_nodup (render rec.key))
    (fun r hr hb => absurd hb (hfresh r hr))
  simp only [record_handler, h]

theorem redelivery_fresh_batch_inserts_succeed_witness :
    (∀ r ∈ [cexFirstRec], r.blockBatch ≠ cexUuid 1) ∧
    record_handler cexRender cexUuid [cexS3] 1 [cexFirstRec] =
      Except.ok ([cexFirstRec] ++
        (((cexRender cexS3.key).enum.filter
            (fun p => !isPandocComment p.2)).map
          (mkBlockRecord (cexUuid 1) cexS3.bucket cexS3.key))) :=
  ⟨by decide,
    redelivery_fresh_batch_inserts_succeed cexRender cexUuid cexS3 1
      [cexFirstRec] (by decide)⟩

/-- C10: within one ingestion run of a document, the stored block indices
are strictly increasing (upload order matches document order), but they
need not be contiguous from 0: a pandoc HTML-comment placeholder is
skipped while the enumeration index still advances, leaving a gap — shown
concretely by a three-block document whose middle block is the
placeholder, which stores indices `[0, 2]`. -/
theorem stored_indices_strictly_increasing_with_gaps :
    (∀ (batch bucket key : String) (blocks : List RenderedBlock),
        List.Chain' (fun a b => a < b)
          ((storeBlocksState batch bucket key blocks.enum []).map
            (fun r => r.blockIndex))) ∧
    ((storeBlocksState "b" "bk" "k"
        ([⟨"TextBlock", "x"⟩, ⟨"TextBlock", "<!-- -->"⟩,
          ⟨"TextBlock", "y"⟩] : List RenderedBlock).enum []).map
      (fun r => r.blockIndex) = [0, 2]) := by
  constructor
  · intro batch bucket key blocks
    have h := storeBlocks_ok batch bucket key blocks.enum []
      (enum_fst_nodup blocks) (by simp)
    have hstate : storeBlocksState batch bucket key blocks.enum [] =
        (blocks.enum.filter (fun p => !isPandocComment p.2)).map
          (mkBlockRecord batch bucket key) := by
      simp [storeBlocksState, h]
    rw [hstate, List.map_map]
    have hmapeq :
        ((fun r => r.blockIndex) ∘ mkBlockRecord batch bucket key) =
          fun (p : Nat × RenderedBlock) => p.1 := rfl
    rw [hmapeq]
    apply List.Pairwise.chain'
    apply List.pairwise_map.mpr
    exact (enum_fst_pairwise_lt blocks).sublist (List.filter_sublist _)
  · decide

end StoreBlocks

end MwToNotion
